import Mathlib

/-!
Verification of the Transformer machine-translation notebook (`MT4fb.ipynb`).

The numeric code is embedded over the real numbers: `torch` tensors of shape
`(seq, dim)` become `Matrix (Fin seq) (Fin dim) ℝ`, `np.sqrt` becomes
`Real.sqrt`, `torch.exp`-based softmax becomes `Real.exp`.  The batch axis is
dropped: every operation in the model (embedding lookup, linear map, layer
norm, attention, softmax) acts on each batch element independently, so the
per-element embedding captures the whole computation.  Discrete code
(`pad_sequences`, `greedy_decode`) is embedded computably over lists.
-/

namespace MT4fb

noncomputable section

open scoped BigOperators

/-! ## Scaled dot-product attention (`ScaledDotProductAttention.forward`)

Source:
```
d_k = query.size(-1)
scores = torch.matmul(query, key.transpose(-2, -1)) / np.sqrt(d_k)
if mask is not None:
    scores = scores.masked_fill(mask == 0, -1e9)
attention = torch.softmax(scores, dim=-1)
output = torch.matmul(attention, value)
return output, attention
```
-/

/-- Row-wise softmax along the last axis, as computed by `torch.softmax(·, dim=-1)`. -/
def softmaxRow {n : ℕ} (v : Fin n → ℝ) : Fin n → ℝ :=
  fun i => Real.exp (v i) / ∑ j, Real.exp (v j)

/-- Raw attention scores `torch.matmul(query, key.transpose(-2, -1)) / np.sqrt(d_k)`. -/
def rawScores {sq sk dk : ℕ} (query : Matrix (Fin sq) (Fin dk) ℝ)
    (key : Matrix (Fin sk) (Fin dk) ℝ) : Matrix (Fin sq) (Fin sk) ℝ :=
  fun i j => (∑ t, query i t * key j t) / Real.sqrt dk

/-- `scores.masked_fill(mask == 0, -1e9)`: overwrite entries whose mask entry is zero. -/
def maskedFill {sq sk : ℕ} (scores : Matrix (Fin sq) (Fin sk) ℝ)
    (mask : Matrix (Fin sq) (Fin sk) ℝ) : Matrix (Fin sq) (Fin sk) ℝ :=
  fun i j => if mask i j = 0 then -1e9 else scores i j

/-- Scores after the optional masking step of `ScaledDotProductAttention.forward`. -/
def maskedScores {sq sk dk : ℕ} (query : Matrix (Fin sq) (Fin dk) ℝ)
    (key : Matrix (Fin sk) (Fin dk) ℝ)
    (mask : Option (Matrix (Fin sq) (Fin sk) ℝ)) : Matrix (Fin sq) (Fin sk) ℝ :=
  match mask with
  | none => rawScores query key
  | some m => maskedFill (rawScores query key) m

/-- The attention-weight tensor `torch.softmax(scores, dim=-1)`. -/
def sdpaAttention {sq sk dk : ℕ} (query : Matrix (Fin sq) (Fin dk) ℝ)
    (key : Matrix (Fin sk) (Fin dk) ℝ)
    (mask : Option (Matrix (Fin sq) (Fin sk) ℝ)) : Matrix (Fin sq) (Fin sk) ℝ :=
  fun i => softmaxRow (maskedScores query key mask i)

/-- `ScaledDotProductAttention.forward`: returns `(output, attention)`. -/
def sdpaForward {sq sk dk dv : ℕ} (query : Matrix (Fin sq) (Fin dk) ℝ)
    (key : Matrix (Fin sk) (Fin dk) ℝ) (value : Matrix (Fin sk) (Fin dv) ℝ)
    (mask : Option (Matrix (Fin sq) (Fin sk) ℝ)) :
    Matrix (Fin sq) (Fin dv) ℝ × Matrix (Fin sq) (Fin sk) ℝ :=
  let attention := sdpaAttention query key mask
  (fun i t => ∑ j, attention i j * value j t, attention)

/-! ## Positional encoding (`PositionalEncoding`)

Source:
```
pe = torch.zeros(max_len, embed_size)
position = torch.arange(0, max_len, dtype=torch.float).unsqueeze(1)
div_term = torch.exp(torch.arange(0, embed_size, 2).float() * (-np.log(10000.0) / embed_size))
pe[:, 0::2] = torch.sin(position * div_term)
pe[:, 1::2] = torch.cos(position * div_term)
...
def forward(self, x):
    return x + self.pe[:, :x.size(1), :].to(x.device)
```
`torch.arange(0, embed_size, 2)` holds the values `2i`, so `div_term[i] =
exp(2i · (-ln 10000 / embed_size))`; entry `(p, 2i)` of the table is
`sin(p · div_term[i])` and entry `(p, 2i+1)` is `cos(p · div_term[i])`.
The table is precomputed for positions `0..max_len-1` with `max_len = 1000`
(the default used by `Transformer`), and `forward` adds the slice
`pe[:, :L]` to the input, i.e. only the entries at positions below the
actual sequence length. -/

/-- `div_term[i] = exp(2i * (-ln 10000 / embed_size))` from
`PositionalEncoding.__init__`. -/
def divTerm (embedSize i : ℕ) : ℝ :=
  Real.exp ((2 * i : ℝ) * (-Real.log 10000 / embedSize))

/-- Entry `(p, d)` of the precomputed positional-encoding table: `sin(p · div_term[d/2])`
for even `d`, `cos(p · div_term[d/2])` for odd `d` (slices `pe[:, 0::2]` and
`pe[:, 1::2]`). -/
def peTable (embedSize p d : ℕ) : ℝ :=
  if d % 2 = 0 then Real.sin (p * divTerm embedSize (d / 2))
  else Real.cos (p * divTerm embedSize (d / 2))

/-- `PositionalEncoding.forward`: add the positional-encoding table, truncated to
the actual sequence length `L` (the `Fin L` index), to the input. -/
def positionalEncodingForward (embedSize : ℕ) {L : ℕ}
    (x : Matrix (Fin L) (Fin embedSize) ℝ) : Matrix (Fin L) (Fin embedSize) ℝ :=
  fun p d => x p d + peTable embedSize p.val d.val

/-- Spec-side positional-encoding entry, from the specification's words: at
position `p`, dimension `2i` is `sin(p / 10000^(2i/embed_size))` and dimension
`2i+1` is `cos(p / 10000^(2i/embed_size))` (so the exponent numerator is `d`
for even `d` and `d - 1` for odd `d`). -/
def specPosEncEntry (embedSize p d : ℕ) : ℝ :=
  if d % 2 = 0 then Real.sin ((p : ℝ) / (10000 : ℝ) ^ ((d : ℝ) / (embedSize : ℝ)))
  else Real.cos ((p : ℝ) / (10000 : ℝ) ^ (((d : ℝ) - 1) / (embedSize : ℝ)))

/-! Spec-side definitions for claim C1, written from the specification's words:
raw scores are "query times key-transposed scaled by 1/√d_k", each score whose
mask entry is zero is overwritten "with a large negative constant before
normalizing", the scores are normalized "to a probability distribution over the
key axis via softmax", and the outputs are "the attention-weighted sum of the
value vectors and the attention-weight tensor". -/

/-- Spec-side raw scores: the matrix product of the query with the transposed key,
scaled by `1/√d_k`. -/
def specRawScores {sq sk dk : ℕ} (query : Matrix (Fin sq) (Fin dk) ℝ)
    (key : Matrix (Fin sk) (Fin dk) ℝ) : Matrix (Fin sq) (Fin sk) ℝ :=
  (Real.sqrt dk)⁻¹ • (query * key.transpose)

/-- Spec-side masking: where the mask is zero the score becomes the large negative
constant `-1e9`; elsewhere it is unchanged. -/
def specMask {sq sk : ℕ} (scores : Matrix (Fin sq) (Fin sk) ℝ)
    (mask : Option (Matrix (Fin sq) (Fin sk) ℝ)) : Matrix (Fin sq) (Fin sk) ℝ :=
  fun i j =>
    match mask with
    | none => scores i j
    | some m => if m i j = 0 then -1e9 else scores i j

/-- Spec-side attention weights: softmax of the masked scores over the key axis. -/
def specAttention {sq sk dk : ℕ} (query : Matrix (Fin sq) (Fin dk) ℝ)
    (key : Matrix (Fin sk) (Fin dk) ℝ)
    (mask : Option (Matrix (Fin sq) (Fin sk) ℝ)) : Matrix (Fin sq) (Fin sk) ℝ :=
  fun i => softmaxRow (specMask (specRawScores query key) mask i)

/-- Spec-side output: the attention-weighted sum of the value vectors. -/
def specWeightedSum {sq sk dv : ℕ} (attention : Matrix (Fin sq) (Fin sk) ℝ)
    (value : Matrix (Fin sk) (Fin dv) ℝ) : Matrix (Fin sq) (Fin dv) ℝ :=
  attention * value

/-! ## Linear layers, ReLU, layer normalization, dropout

`nn.Linear(din, dout)` computes `y = x Wᵀ + b`; `nn.LayerNorm(d)` normalizes
each position to zero mean and unit (biased) variance with `eps = 1e-5` inside
the square root, then applies the learned elementwise affine transform.
`nn.Dropout` is stochastic in training mode and the identity in eval mode; the
embedding quantifies over an arbitrary realization of each dropout call, so
every theorem below holds for training mode (any realization) and eval mode
(the identity realization) alike. -/

/-- Parameters of `nn.Linear(din, dout)`. -/
structure LinearParams (din dout : ℕ) where
  weight : Matrix (Fin dout) (Fin din) ℝ
  bias : Fin dout → ℝ

/-- `nn.Linear` applied along the last axis: `y = x Wᵀ + b`. -/
def linearForward {L din dout : ℕ} (P : LinearParams din dout)
    (x : Matrix (Fin L) (Fin din) ℝ) : Matrix (Fin L) (Fin dout) ℝ :=
  fun p o => (∑ i, x p i * P.weight o i) + P.bias o

/-- `torch.relu`. -/
def relu (x : ℝ) : ℝ := max x 0

/-- `nn.LayerNorm(d)` on a single position vector, with learned elementwise
affine parameters `γ`, `β` and `eps = 1e-5`. -/
def layerNormRow {d : ℕ} (γ β : Fin d → ℝ) (x : Fin d → ℝ) : Fin d → ℝ :=
  let μ := (∑ i, x i) / d
  let σ2 := (∑ i, (x i - μ) ^ 2) / d
  fun i => (x i - μ) / Real.sqrt (σ2 + 1e-5) * γ i + β i

/-- `nn.LayerNorm(d)` applied independently at every sequence position. -/
def layerNormMat {L d : ℕ} (γ β : Fin d → ℝ) (x : Matrix (Fin L) (Fin d) ℝ) :
    Matrix (Fin L) (Fin d) ℝ :=
  fun p => layerNormRow γ β (x p)

/-! ## `MultiHeadAttention.forward`

Source:
```
query = self.query_linear(query); key = self.key_linear(key); value = self.value_linear(value)
query = query.view(batch_size, -1, self.num_heads, self.head_dim).transpose(1, 2)
...
attention_output, _ = ScaledDotProductAttention()(query, key, value, mask)
attention_output = attention_output.transpose(1, 2).contiguous()
attention_output = attention_output.view(batch_size, -1, self.num_heads * self.head_dim)
output = self.fc_out(attention_output)
```
The `view(..., num_heads, head_dim).transpose(1, 2)` reshape assigns embedding
coordinate `e` to head `e / head_dim` at within-head index `e % head_dim`
(row-major layout), i.e. head `h` sees the contiguous slice
`[h·head_dim, (h+1)·head_dim)`; the inverse reshape concatenates the head
outputs back.  The embedding size is written `H * D` (`num_heads * head_dim`)
throughout. -/

/-- Learned parameters of `MultiHeadAttention` with `H` heads of dimension `D`
(so `embed_size = H * D`). -/
structure MHAParams (H D : ℕ) where
  query_linear : LinearParams (H * D) (H * D)
  key_linear : LinearParams (H * D) (H * D)
  value_linear : LinearParams (H * D) (H * D)
  fc_out : LinearParams (H * D) (H * D)

/-- The per-head slice produced by `view(batch, -1, num_heads, head_dim).transpose(1, 2)`:
head `h` sees embedding coordinates `h*D + j` for `j < D`. -/
def splitHeads {L : ℕ} (H D : ℕ) (x : Matrix (Fin L) (Fin (H * D)) ℝ) (h : Fin H) :
    Matrix (Fin L) (Fin D) ℝ :=
  fun p j => x p ⟨h.val * D + j.val, by
    calc h.val * D + j.val < h.val * D + D := Nat.add_lt_add_left j.isLt _
    _ = (h.val + 1) * D := by ring
    _ ≤ H * D := Nat.mul_le_mul_right D h.isLt⟩

/-- The inverse reshape `transpose(1, 2).contiguous().view(batch, -1, H * D)`:
concatenate the head outputs along the embedding axis. -/
def combineHeads {L : ℕ} (H D : ℕ) (heads : Fin H → Matrix (Fin L) (Fin D) ℝ) :
    Matrix (Fin L) (Fin (H * D)) ℝ :=
  fun p e =>
    have hD : 0 < D := by
      rcases Nat.eq_zero_or_pos D with h | h
      · exact absurd e.isLt (by simp [h])
      · exact h
    heads ⟨e.val / D, (Nat.div_lt_iff_lt_mul hD).mpr e.isLt⟩ p
      ⟨e.val % D, Nat.mod_lt _ hD⟩

/-- `MultiHeadAttention.forward`: project query/key/value, split into heads, run
scaled dot-product attention independently per head (the same optional mask for
every head), concatenate, and apply the output projection. -/
def mhaForward {H D Lq Lk : ℕ} (P : MHAParams H D)
    (query : Matrix (Fin Lq) (Fin (H * D)) ℝ)
    (key value : Matrix (Fin Lk) (Fin (H * D)) ℝ)
    (mask : Option (Matrix (Fin Lq) (Fin Lk) ℝ)) :
    Matrix (Fin Lq) (Fin (H * D)) ℝ :=
  let q := linearForward P.query_linear query
  let k := linearForward P.key_linear key
  let v := linearForward P.value_linear value
  let headsOut : Fin H → Matrix (Fin Lq) (Fin D) ℝ := fun h =>
    (sdpaForward (splitHeads H D q h) (splitHeads H D k h) (splitHeads H D v h) mask).1
  linearForward P.fc_out (combineHeads H D headsOut)

/-! ## `FeedForward`, `TransformerBlock`, `Transformer` -/

/-- Learned parameters of `FeedForward(embed_size, ff_hidden_size)`. -/
structure FeedForwardParams (E F : ℕ) where
  linear1 : LinearParams E F
  linear2 : LinearParams F E

/-- `FeedForward.forward`: `linear2(dropout(relu(linear1(x))))`, with the dropout
realization passed explicitly. -/
def feedForwardForward {L E F : ℕ} (P : FeedForwardParams E F)
    (drop : Matrix (Fin L) (Fin F) ℝ → Matrix (Fin L) (Fin F) ℝ)
    (x : Matrix (Fin L) (Fin E) ℝ) : Matrix (Fin L) (Fin E) ℝ :=
  linearForward P.linear2 (drop (fun p j => relu (linearForward P.linear1 x p j)))

/-- Learned parameters and dropout realizations of one `TransformerBlock`
(`embed_size = H * D`, feed-forward hidden size `F`).  The dropout fields model
one realization of each of the block's dropout call sites. -/
structure BlockParams (H D F : ℕ) where
  attention : MHAParams H D
  norm1γ : Fin (H * D) → ℝ
  norm1β : Fin (H * D) → ℝ
  norm2γ : Fin (H * D) → ℝ
  norm2β : Fin (H * D) → ℝ
  feed_forward : FeedForwardParams (H * D) F
  ffDrop : ∀ {L : ℕ}, Matrix (Fin L) (Fin F) ℝ → Matrix (Fin L) (Fin F) ℝ
  drop1 : ∀ {L : ℕ}, Matrix (Fin L) (Fin (H * D)) ℝ → Matrix (Fin L) (Fin (H * D)) ℝ
  drop2 : ∀ {L : ℕ}, Matrix (Fin L) (Fin (H * D)) ℝ → Matrix (Fin L) (Fin (H * D)) ℝ

/-- `TransformerBlock.forward`:
```
attention_output = self.attention(query, key, value, mask)
x = self.norm1(query + self.dropout(attention_output))
ff_output = self.feed_forward(x)
return self.norm2(x + self.dropout(ff_output))
```
-/
def blockForward {H D F Lq Lk : ℕ} (B : BlockParams H D F)
    (query : Matrix (Fin Lq) (Fin (H * D)) ℝ)
    (key value : Matrix (Fin Lk) (Fin (H * D)) ℝ)
    (mask : Option (Matrix (Fin Lq) (Fin Lk) ℝ)) : Matrix (Fin Lq) (Fin (H * D)) ℝ :=
  let attention_output := mhaForward B.attention query key value mask
  let x := layerNormMat B.norm1γ B.norm1β (query + B.drop1 attention_output)
  let ff_output := feedForwardForward B.feed_forward B.ffDrop x
  layerNormMat B.norm2γ B.norm2β (x + B.drop2 ff_output)

/-- Learned parameters of the full `Transformer` (source vocabulary `Vs`, target
vocabulary `Vt`, `H` heads of dimension `D`, feed-forward hidden size `F`). -/
structure TransformerParams (Vs Vt H D F : ℕ) where
  src_embedding : Fin Vs → Fin (H * D) → ℝ
  tgt_embedding : Fin Vt → Fin (H * D) → ℝ
  encoder_layers : List (BlockParams H D F)
  decoder_layers : List (BlockParams H D F)
  fc_out : LinearParams (H * D) Vt

/-- `Transformer.forward`:
```
src = self.positional_encoding(self.src_embedding(src))
tgt = self.positional_encoding(self.tgt_embedding(tgt))
for layer in self.encoder_layers:
    src = layer(src, src, src, src_mask)
for layer in self.decoder_layers:
    tgt = layer(tgt, src, src, tgt_mask)
return self.fc_out(tgt)
```
(one batch element; `src`/`tgt` are token-id sequences). -/
def transformerForward {Vs Vt H D F Ls Lt : ℕ} (T : TransformerParams Vs Vt H D F)
    (src : Fin Ls → Fin Vs) (tgt : Fin Lt → Fin Vt)
    (src_mask : Option (Matrix (Fin Ls) (Fin Ls) ℝ))
    (tgt_mask : Option (Matrix (Fin Lt) (Fin Ls) ℝ)) : Matrix (Fin Lt) (Fin Vt) ℝ :=
  let srcRep := positionalEncodingForward (H * D) (fun p i => T.src_embedding (src p) i)
  let tgtRep := positionalEncodingForward (H * D) (fun p i => T.tgt_embedding (tgt p) i)
  let encOut := T.encoder_layers.foldl (fun acc B => blockForward B acc acc acc src_mask) srcRep
  let decOut := T.decoder_layers.foldl (fun acc B => blockForward B acc encOut encOut tgt_mask) tgtRep
  linearForward T.fc_out decOut

/-! Spec-side definitions for claim C2, written from the specification's words. -/

/-- Spec-side encoder stack: each block self-attends over the evolving source
representation (`query = key = value = source`). -/
def specEncoderStack {H D F Ls : ℕ} (layers : List (BlockParams H D F))
    (x : Matrix (Fin Ls) (Fin (H * D)) ℝ)
    (mask : Option (Matrix (Fin Ls) (Fin Ls) ℝ)) : Matrix (Fin Ls) (Fin (H * D)) ℝ :=
  layers.foldl (fun rep B => blockForward B rep rep rep mask) x

/-- Spec-side decoder stack: each block's query is the evolving target
representation while key and value are both the final encoder output
(cross-attention only — there is no target self-attention sub-layer before
the cross-attention). -/
def specDecoderStack {H D F Ls Lt : ℕ} (layers : List (BlockParams H D F))
    (x : Matrix (Fin Lt) (Fin (H * D)) ℝ)
    (encOut : Matrix (Fin Ls) (Fin (H * D)) ℝ)
    (mask : Option (Matrix (Fin Lt) (Fin Ls) ℝ)) : Matrix (Fin Lt) (Fin (H * D)) ℝ :=
  layers.foldl (fun rep B => blockForward B rep encOut encOut mask) x

end

end MT4fb

namespace MT4fb

lemma specRawScores_eq_rawScores {sq sk dk : ℕ} (query : Matrix (Fin sq) (Fin dk) ℝ)
    (key : Matrix (Fin sk) (Fin dk) ℝ) :
    specRawScores query key = rawScores query key := by
  funext i j
  simp [specRawScores, rawScores, Matrix.mul_apply, Matrix.transpose_apply,
    Matrix.smul_apply, div_eq_inv_mul]

lemma specAttention_eq_sdpaAttention {sq sk dk : ℕ} (query : Matrix (Fin sq) (Fin dk) ℝ)
    (key : Matrix (Fin sk) (Fin dk) ℝ) (mask : Option (Matrix (Fin sq) (Fin sk) ℝ)) :
    specAttention query key mask = sdpaAttention query key mask := by
  unfold specAttention sdpaAttention
  rw [specRawScores_eq_rawScores]
  cases mask <;> rfl

lemma softmaxRow_sum_one {n : ℕ} (v : Fin n → ℝ)
    (hn : (Finset.univ : Finset (Fin n)).Nonempty) :
    ∑ i, softmaxRow v i = 1 := by
  have hZ : 0 < ∑ j, Real.exp (v j) :=
    Finset.sum_pos (fun j _ => Real.exp_pos _) hn
  rw [show ∑ i, softmaxRow v i = (∑ i, Real.exp (v i)) / ∑ j, Real.exp (v j) by
    rw [Finset.sum_div]; rfl]
  exact div_self (ne_of_gt hZ)

lemma maskedScores_of_mask_ne_zero {sq sk dk : ℕ} (query : Matrix (Fin sq) (Fin dk) ℝ)
    (key : Matrix (Fin sk) (Fin dk) ℝ) (M : Matrix (Fin sq) (Fin sk) ℝ)
    (i : Fin sq) (j : Fin sk) (h : M i j ≠ 0) :
    maskedScores query key (some M) i j = rawScores query key i j := by
  simp [maskedScores, maskedFill, h]

/-- Claim C1: for every query, key, value input and optional mask,
`ScaledDotProductAttention.forward` computes raw scores as the query times the
transposed key scaled by `1/√d_k`, overwrites each score whose mask entry is
zero with the large negative constant `-1e9` before normalizing, normalizes the
scores over the key axis via softmax, and returns the attention-weighted sum of
the value vectors together with the attention-weight tensor. -/
theorem sdpaForward_correct {sq sk dk dv : ℕ} (query : Matrix (Fin sq) (Fin dk) ℝ)
    (key : Matrix (Fin sk) (Fin dk) ℝ) (value : Matrix (Fin sk) (Fin dv) ℝ)
    (mask : Option (Matrix (Fin sq) (Fin sk) ℝ)) :
    sdpaForward query key value mask =
      (specWeightedSum (specAttention query key mask) value,
        specAttention query key mask) := by
  rw [sdpaForward]
  rw [specAttention_eq_sdpaAttention]
  refine Prod.ext ?_ rfl
  funext i t
  simp [specWeightedSum, Matrix.mul_apply]

/-- Claim C5: for every mask and every query position `i` that is not fully
masked (witnessed by an unmasked key index `j₀`), the attention weights
returned by `ScaledDotProductAttention.forward` sum to exactly 1 over the key
axis (in exact real arithmetic, hence within floating tolerance), and every
masked-out key position `j` contributes at most `exp(-1e9 - score i j₀)` —
an astronomically small quantity, i.e. approximately 0. -/
theorem sdpaAttention_probability {sq sk dk : ℕ} (query : Matrix (Fin sq) (Fin dk) ℝ)
    (key : Matrix (Fin sk) (Fin dk) ℝ) (M : Matrix (Fin sq) (Fin sk) ℝ)
    (i : Fin sq) (j₀ : Fin sk) (h : M i j₀ ≠ 0) :
    (∑ j, sdpaAttention query key (some M) i j) = 1 ∧
      ∀ j, M i j = 0 →
        sdpaAttention query key (some M) i j ≤
          Real.exp (-1e9 - rawScores query key i j₀) := by
  constructor
  · exact softmaxRow_sum_one _ ⟨j₀, Finset.mem_univ j₀⟩
  · intro j hj
    have hms : maskedScores query key (some M) i j = -1e9 := by
      simp [maskedScores, maskedFill, hj]
    have hZ : Real.exp (rawScores query key i j₀) ≤
        ∑ j', Real.exp (maskedScores query key (some M) i j') := by
      rw [← maskedScores_of_mask_ne_zero query key M i j₀ h]
      exact Finset.single_le_sum (fun j' _ => (Real.exp_pos _).le) (Finset.mem_univ j₀)
    have hpos : 0 < Real.exp (rawScores query key i j₀) := Real.exp_pos _
    have : sdpaAttention query key (some M) i j =
        Real.exp (-1e9) / ∑ j', Real.exp (maskedScores query key (some M) i j') := by
      simp only [sdpaAttention, softmaxRow, hms]
    rw [this, Real.exp_sub]
    gcongr

/-- Concrete query for the claim C5 witness. -/
def wQuery : Matrix (Fin 1) (Fin 1) ℝ := fun _ _ => 1

/-- Concrete key for the claim C5 witness. -/
def wKey : Matrix (Fin 2) (Fin 1) ℝ := fun _ _ => 0

/-- Concrete mask for the claim C5 witness: key 0 visible, key 1 masked out. -/
def wMask : Matrix (Fin 1) (Fin 2) ℝ := fun _ j => if j = 0 then 1 else 0

/-- Witness for claim C5 at a concrete query, key and mask. -/
theorem sdpaAttention_probability_witness :
    wMask 0 0 ≠ 0 ∧
      ((∑ j, sdpaAttention wQuery wKey (some wMask) 0 j) = 1 ∧
        ∀ j, wMask 0 j = 0 →
          sdpaAttention wQuery wKey (some wMask) 0 j ≤
            Real.exp (-1e9 - rawScores wQuery wKey 0 0)) :=
  ⟨by simp [wMask], sdpaAttention_probability wQuery wKey wMask 0 0 (by simp [wMask])⟩

lemma divTerm_eq_rpow_inv (E i : ℕ) :
    divTerm E i = ((10000 : ℝ) ^ ((2 * i : ℝ) / (E : ℝ)))⁻¹ := by
  rw [divTerm, Real.rpow_def_of_pos (by norm_num : (0:ℝ) < 10000), ← Real.exp_neg]
  congr 1
  ring

lemma peTable_even (E p d : ℕ) (hd : d % 2 = 0) :
    peTable E p d = specPosEncEntry E p d := by
  rw [peTable, if_pos hd, specPosEncEntry, if_pos hd, divTerm_eq_rpow_inv]
  have h2 : (2 * (↑(d / 2)) : ℝ) = (d : ℝ) := by
    have h : 2 * (d / 2) = d := by omega
    exact_mod_cast congrArg (Nat.cast : ℕ → ℝ) h
  rw [h2, ← div_eq_mul_inv]

lemma peTable_odd (E p d : ℕ) (hd : d % 2 = 1) :
    peTable E p d = specPosEncEntry E p d := by
  have hne : ¬ d % 2 = 0 := by omega
  rw [peTable, if_neg hne, specPosEncEntry, if_neg hne, divTerm_eq_rpow_inv]
  have h2 : (2 * (↑(d / 2)) : ℝ) = (d : ℝ) - 1 := by
    have h1 : 1 ≤ d := by omega
    have h : 2 * (d / 2) = d - 1 := by omega
    have hc : ((2 * (d / 2) : ℕ) : ℝ) = ((d - 1 : ℕ) : ℝ) := by rw [h]
    rw [Nat.cast_sub h1] at hc
    push_cast at hc
    exact hc
  rw [h2, ← div_eq_mul_inv]

/-- Claim C7: the positional-encoding table is a deterministic, non-trainable
function of position and dimension; the entry at position `p` and dimension
`2i` is `sin(p / 10000^(2i/embed_size))` and at dimension `2i+1` is
`cos(p / 10000^(2i/embed_size))`, precomputed for positions `0..max_len-1`
(`max_len = 1000`); `forward` adds exactly the table entry at each position
below the actual sequence length (truncation); and the offset added to an
embedding depends only on position and dimension, so adding the encoding to
the same embedding twice yields identical results both times. -/
theorem positionalEncoding_spec (E : ℕ) (_hE : 0 < E) :
    (∀ p d : ℕ, p < 1000 → d < E → peTable E p d = specPosEncEntry E p d) ∧
      (∀ (L : ℕ) (x : Matrix (Fin L) (Fin E) ℝ) (p : Fin L) (d : Fin E),
        positionalEncodingForward E x p d = x p d + peTable E p.val d.val) ∧
      (∀ (L L' : ℕ) (x : Matrix (Fin L) (Fin E) ℝ) (y : Matrix (Fin L') (Fin E) ℝ)
        (p : Fin L) (p' : Fin L') (d : Fin E), p.val = p'.val →
        positionalEncodingForward E x p d - x p d =
          positionalEncodingForward E y p' d - y p' d) := by
  refine ⟨?_, fun L x p d => rfl, ?_⟩
  · intro p d _ _
    rcases Nat.mod_two_eq_zero_or_one d with hd | hd
    · exact peTable_even E p d hd
    · exact peTable_odd E p d hd
  · intro L L' x y p p' d hp
    simp only [positionalEncodingForward, add_sub_cancel_left, hp]

/-- Witness for claim C7 at the notebook's embedding size `embed_size = 256`. -/
theorem positionalEncoding_spec_witness :
    0 < 256 ∧
      ((∀ p d : ℕ, p < 1000 → d < 256 → peTable 256 p d = specPosEncEntry 256 p d) ∧
        (∀ (L : ℕ) (x : Matrix (Fin L) (Fin 256) ℝ) (p : Fin L) (d : Fin 256),
          positionalEncodingForward 256 x p d = x p d + peTable 256 p.val d.val) ∧
        (∀ (L L' : ℕ) (x : Matrix (Fin L) (Fin 256) ℝ)
          (y : Matrix (Fin L') (Fin 256) ℝ)
          (p : Fin L) (p' : Fin L') (d : Fin 256), p.val = p'.val →
          positionalEncodingForward 256 x p d - x p d =
            positionalEncodingForward 256 y p' d - y p' d)) :=
  ⟨by decide, positionalEncoding_spec 256 (by decide)⟩

/-- Claim C2: for every source and target token-id sequence (and optional
masks), `Transformer.forward` embeds and positionally encodes both sequences,
runs the encoder stack self-attending over the evolving source representation
(`query = key = value = source`), then runs the decoder stack where each
block's query is the evolving target representation and key = value are the
final encoder output — with no target self-attention sub-layer before the
cross-attention — and finally returns per-position logits over the target
vocabulary (one row per target position, type `Matrix (Fin Lt) (Fin Vt) ℝ`,
i.e. shape `(target_len, tgt_vocab_size)` per batch element) as a raw affine
projection with no activation applied. -/
theorem transformerForward_spec {Vs Vt H D F Ls Lt : ℕ}
    (T : TransformerParams Vs Vt H D F)
    (src : Fin Ls → Fin Vs) (tgt : Fin Lt → Fin Vt)
    (src_mask : Option (Matrix (Fin Ls) (Fin Ls) ℝ))
    (tgt_mask : Option (Matrix (Fin Lt) (Fin Ls) ℝ)) :
    transformerForward T src tgt src_mask tgt_mask =
        linearForward T.fc_out
          (specDecoderStack T.decoder_layers
            (positionalEncodingForward (H * D) (fun p i => T.tgt_embedding (tgt p) i))
            (specEncoderStack T.encoder_layers
              (positionalEncodingForward (H * D) (fun p i => T.src_embedding (src p) i))
              src_mask)
            tgt_mask) ∧
      ∀ (p : Fin Lt) (o : Fin Vt),
        transformerForward T src tgt src_mask tgt_mask p o =
          (∑ i, specDecoderStack T.decoder_layers
              (positionalEncodingForward (H * D) (fun p' i => T.tgt_embedding (tgt p') i))
              (specEncoderStack T.encoder_layers
                (positionalEncodingForward (H * D) (fun p' i => T.src_embedding (src p') i))
                src_mask)
              tgt_mask p i * T.fc_out.weight o i) + T.fc_out.bias o :=
  ⟨rfl, fun _ _ => rfl⟩

/-! ## `pad_sequences`

Source:
```
def pad_sequences(sequences, maxlen, padding_value=0):
    return np.array([seq + [padding_value] * (maxlen - len(seq))
                     if len(seq) < maxlen else seq[:maxlen] for seq in sequences])
```
-/

/-- `pad_sequences`: pad each sequence with `paddingValue` up to `maxlen` when it
is shorter, otherwise keep only its first `maxlen` tokens (the call sites use
`padding_value = 0`). -/
def pad_sequences (sequences : List (List ℕ)) (maxlen : ℕ) (paddingValue : ℕ) :
    List (List ℕ) :=
  sequences.map (fun seq =>
    if seq.length < maxlen then seq ++ List.replicate (maxlen - seq.length) paddingValue
    else seq.take maxlen)

lemma pad_sequences_row (maxlen : ℕ) (s : List ℕ) :
    (if s.length < maxlen then s ++ List.replicate (maxlen - s.length) 0
      else s.take maxlen) = s.take maxlen ++ List.replicate (maxlen - s.length) 0 := by
  by_cases h : s.length < maxlen
  · rw [if_pos h, List.take_of_length_le h.le]
  · rw [if_neg h, Nat.sub_eq_zero_of_le (le_of_not_lt h), List.replicate_zero,
      List.append_nil]

/-- Claim C8: `pad_sequences` is total — it silently truncates every sequence
longer than `maxlen` to its first `maxlen` tokens rather than raising an error,
and pads every shorter sequence with the padding value `0` up to `maxlen`, so
every output row has length exactly `maxlen`. -/
theorem pad_sequences_spec (seqs : List (List ℕ)) (maxlen : ℕ) :
    pad_sequences seqs maxlen 0 =
        seqs.map (fun s => s.take maxlen ++ List.replicate (maxlen - s.length) 0) ∧
      ∀ s ∈ pad_sequences seqs maxlen 0, s.length = maxlen := by
  have hmap : pad_sequences seqs maxlen 0 =
      seqs.map (fun s => s.take maxlen ++ List.replicate (maxlen - s.length) 0) := by
    unfold pad_sequences
    exact List.map_congr_left (fun s _ => pad_sequences_row maxlen s)
  refine ⟨hmap, ?_⟩
  intro s hs
  rw [hmap] at hs
  obtain ⟨t, _, rfl⟩ := List.mem_map.mp hs
  rw [List.length_append, List.length_take, List.length_replicate]
  omega

/-! ## `MultiHeadAttention.__init__` (claim C6)

Source:
```
def __init__(self, embed_size, num_heads):
    super(MultiHeadAttention, self).__init__()
    assert embed_size % num_heads == 0, "Embedding size must be divisible by the number of heads"
    self.num_heads = num_heads
    self.head_dim = embed_size // num_heads
    ...
```
In Python, `embed_size % num_heads` itself raises `ZeroDivisionError` when
`num_heads == 0`, before the assertion is evaluated; otherwise the assertion
raises exactly when the remainder is nonzero. -/

/-- Configuration recorded by a successfully constructed `MultiHeadAttention`. -/
structure MHAConfig where
  numHeads : ℕ
  headDim : ℕ

/-- `MultiHeadAttention.__init__` as a fallible constructor: construction fails
with the assertion message exactly when `embed_size % num_heads ≠ 0` (and with a
division-by-zero error when `num_heads = 0`, where Python's `%` itself raises). -/
def mhaInit (embedSize numHeads : ℕ) : Except String MHAConfig :=
  if numHeads = 0 then Except.error "ZeroDivisionError: integer modulo by zero"
  else if embedSize % numHeads = 0 then
    Except.ok ⟨numHeads, embedSize / numHeads⟩
  else
    Except.error "AssertionError: Embedding size must be divisible by the number of heads"

/-- Claim C6: for every positive `num_heads`, constructing `MultiHeadAttention`
succeeds exactly when `embed_size % num_heads == 0` (otherwise it raises a fatal
error at construction time), and every successful construction yields a head
partition with `num_heads * head_dim = embed_size` — so no divisibility failure
can remain to be discovered at forward time (the embedded forward pass below is
a total function on constructed configurations). -/
theorem mhaInit_spec (e h : ℕ) (hh : 0 < h) :
    ((mhaInit e h).isOk ↔ e % h = 0) ∧
      ∀ cfg, mhaInit e h = Except.ok cfg → cfg.numHeads * cfg.headDim = e := by
  have hne : h ≠ 0 := Nat.pos_iff_ne_zero.mp hh
  constructor
  · constructor
    · intro hok
      by_contra hmod
      simp [mhaInit, hne, hmod, Except.isOk, Except.toBool] at hok
    · intro hmod
      simp [mhaInit, hne, hmod, Except.isOk, Except.toBool]
  · intro cfg hcfg
    by_cases hmod : e % h = 0
    · simp only [mhaInit, if_neg hne, if_pos hmod] at hcfg
      cases hcfg
      exact (Nat.mul_div_cancel' (Nat.dvd_of_mod_eq_zero hmod))
    · simp [mhaInit, hne, hmod] at hcfg

/-- Witness for claim C6 at the notebook's configuration `embed_size = 256`,
`num_heads = 8`. -/
theorem mhaInit_spec_witness :
    0 < 8 ∧ (((mhaInit 256 8).isOk ↔ 256 % 8 = 0) ∧
      ∀ cfg, mhaInit 256 8 = Except.ok cfg → cfg.numHeads * cfg.headDim = 256) :=
  ⟨by decide, mhaInit_spec 256 8 (by decide)⟩

/-! ## `greedy_decode`

Source:
```
def greedy_decode(model, src_sentence, max_len=50, start_token_id=2, end_token_id=3):
    tgt_sequence = torch.tensor([[start_token_id]], ...)
    for _ in range(max_len):
        output = model(src_sentence, tgt_sequence)
        next_token_id = output[:, -1, :].argmax(dim=-1).item()
        tgt_sequence = torch.cat([tgt_sequence, torch.tensor([[next_token_id]], ...)], dim=1)
        if next_token_id == end_token_id:
            break
    return tgt_sequence.squeeze(0).tolist()
```
The model is a parameter (any function from the source sentence and the
current prefix to per-position logit rows); `output[:, -1, :]` is the logit
row at the final output position and `argmax` returns the index of the first
maximal entry. -/

/-- Tail of `torch.argmax` over a logit row: scan the remaining entries,
keeping the index of the first maximal value seen so far. -/
def argmaxAux {α : Type} [LinearOrder α] : List α → ℕ → ℕ → α → ℕ
  | [], _, best, _ => best
  | x :: xs, i, best, bestVal =>
    if bestVal < x then argmaxAux xs (i + 1) i x
    else argmaxAux xs (i + 1) best bestVal

/-- `torch.argmax(dim=-1)` on a logit row: index of the first maximal entry. -/
def argmaxIdx {α : Type} [LinearOrder α] : List α → ℕ
  | [] => 0
  | x :: xs => argmaxAux xs 1 0 x

/-- `output[:, -1, :].argmax(dim=-1).item()`: run a full forward pass of the
model on the fixed source and the current generated prefix and take the argmax
over the vocabulary at the final output position. -/
def nextTokenId {α : Type} [LinearOrder α] (model : List ℤ → List ℤ → List (List α))
    (src_sentence tgt_sequence : List ℤ) : ℤ :=
  (argmaxIdx ((model src_sentence tgt_sequence).getLastD []) : ℤ)

/-- The `for _ in range(max_len)` loop of `greedy_decode`: at most `fuel`
iterations remain; each iteration appends the next token and stops early when
that token is the end token. -/
def greedyLoop {α : Type} [LinearOrder α] (model : List ℤ → List ℤ → List (List α))
    (src_sentence : List ℤ) (end_token_id : ℤ) : ℕ → List ℤ → List ℤ
  | 0, tgt_sequence => tgt_sequence
  | fuel + 1, tgt_sequence =>
    let next := nextTokenId model src_sentence tgt_sequence
    let tgt' := tgt_sequence ++ [next]
    if next = end_token_id then tgt'
    else greedyLoop model src_sentence end_token_id fuel tgt'

/-- `greedy_decode`: start from the sequence `[start_token_id]` and run the
bounded generation loop (defaults at the call sites: `max_len = 50`,
`start_token_id = 2`, `end_token_id = 3`). -/
def greedy_decode {α : Type} [LinearOrder α] (model : List ℤ → List ℤ → List (List α))
    (src_sentence : List ℤ) (max_len : ℕ) (start_token_id end_token_id : ℤ) :
    List ℤ :=
  greedyLoop model src_sentence end_token_id max_len [start_token_id]

lemma greedyLoop_spec {α : Type} [LinearOrder α]
    (model : List ℤ → List ℤ → List (List α)) (src : List ℤ) (e : ℤ) :
    ∀ (fuel : ℕ) (seq : List ℤ), ∃ gen : List ℤ,
      greedyLoop model src e fuel seq = seq ++ gen ∧
      gen.length ≤ fuel ∧
      (∀ k, seq.length ≤ k → k < seq.length + gen.length →
        (seq ++ gen)[k]? = some (nextTokenId model src ((seq ++ gen).take k))) ∧
      (∀ k, k + 1 < gen.length → gen[k]? ≠ some e) ∧
      (gen.length < fuel → gen.getLast? = some e) ∧
      (fuel ≠ 0 → gen ≠ []) := by
  intro fuel
  induction fuel with
  | zero =>
    intro seq
    refine ⟨[], by simp [greedyLoop], le_refl 0, ?_, ?_, ?_, ?_⟩
    · intro k hk1 hk2
      simp only [List.length_nil] at hk2
      omega
    · intro k hk
      simp only [List.length_nil] at hk
      omega
    · intro h
      omega
    · intro h
      exact absurd rfl h
  | succ fuel ih =>
    intro seq
    by_cases hstop : nextTokenId model src seq = e
    · refine ⟨[nextTokenId model src seq], ?_, ?_, ?_, ?_, ?_, ?_⟩
      · simp only [greedyLoop]
        rw [if_pos hstop]
      · simp only [List.length_singleton]
        omega
      · intro k hk1 hk2
        have hk : k = seq.length := by
          simp only [List.length_singleton] at hk2
          omega
        subst hk
        rw [List.getElem?_append_right (le_refl seq.length)]
        rw [List.take_append_of_le_length (le_refl seq.length), List.take_length]
        simp
      · intro k hk
        simp only [List.length_singleton] at hk
        omega
      · intro _
        rw [List.getLast?_singleton, hstop]
      · intro _
        exact List.cons_ne_nil _ _
    · obtain ⟨gen', h1, h2, h3, h4, h5, h6⟩ := ih (seq ++ [nextTokenId model src seq])
      have happ : (seq ++ [nextTokenId model src seq]) ++ gen' =
          seq ++ nextTokenId model src seq :: gen' := by
        rw [List.append_assoc, List.singleton_append]
      refine ⟨nextTokenId model src seq :: gen', ?_, ?_, ?_, ?_, ?_, ?_⟩
      · simp only [greedyLoop]
        rw [if_neg hstop, h1, happ]
      · simpa using Nat.succ_le_succ h2
      · intro k hk1 hk2
        by_cases hk : k = seq.length
        · subst hk
          rw [List.getElem?_append_right (le_refl seq.length)]
          rw [List.take_append_of_le_length (le_refl seq.length), List.take_length]
          simp
        · have hseq' : (seq ++ [nextTokenId model src seq]).length ≤ k := by
            simp only [List.length_append, List.length_singleton]
            omega
          have hk2' : k < (seq ++ [nextTokenId model src seq]).length + gen'.length := by
            simp only [List.length_append, List.length_singleton]
            simp only [List.length_cons] at hk2
            omega
          have := h3 k hseq' hk2'
          rw [happ] at this
          exact this
      · intro k hk
        cases k with
        | zero =>
          simpa using hstop
        | succ k' =>
          rw [List.getElem?_cons_succ]
          refine h4 k' ?_
          simp only [List.length_cons] at hk
          omega
      · intro h
        have hlt : gen'.length < fuel := by
          simp only [List.length_cons] at h
          omega
        have hglast := h5 hlt
        have hne : gen' ≠ [] := by
          intro hnil
          rw [hnil] at hglast
          simp at hglast
        cases gen' with
        | nil => exact absurd rfl hne
        | cons b t =>
          rw [List.getLast?_cons_cons]
          exact hglast
      · intro _
        exact List.cons_ne_nil _ _

/-- Claim C3: for every model and source sentence, `greedy_decode` starts from
the sequence `[start_token_id]` (so the start token is the head of the
result), each subsequent element of the result is obtained by running a full
forward pass of the model over the fixed source and the current generated
prefix and taking the argmax over the vocabulary at the final output position,
the loop always terminates — the result has at most `max_len + 1` tokens
because the `range(max_len)` loop makes at most `max_len` iterations — and the
loop stops only when the argmax equals `end_token_id` or the bound is reached:
either the result ends in `end_token_id` or it has exactly `max_len + 1`
tokens. -/
theorem greedy_decode_spec {α : Type} [LinearOrder α]
    (model : List ℤ → List ℤ → List (List α)) (src : List ℤ) (max_len : ℕ)
    (s e : ℤ) :
    (greedy_decode model src max_len s e).head? = some s ∧
      (∀ k, 1 ≤ k → k < (greedy_decode model src max_len s e).length →
        (greedy_decode model src max_len s e)[k]? =
          some (nextTokenId model src ((greedy_decode model src max_len s e).take k))) ∧
      (greedy_decode model src max_len s e).length ≤ max_len + 1 ∧
      ((greedy_decode model src max_len s e).getLast? = some e ∨
        (greedy_decode model src max_len s e).length = max_len + 1) := by
  obtain ⟨gen, h1, h2, h3, h4, h5, h6⟩ := greedyLoop_spec model src e max_len [s]
  have hr : greedy_decode model src max_len s e = s :: gen := by
    rw [greedy_decode, h1, List.singleton_append]
  rw [hr]
  refine ⟨rfl, ?_, ?_, ?_⟩
  · intro k hk1 hk2
    have h3' := h3 k (by simpa using hk1)
      (by simp only [List.length_singleton]; simpa [List.length_cons, Nat.add_comm] using hk2)
    rw [List.singleton_append] at h3'
    exact h3'
  · simp only [List.length_cons]
    omega
  · rcases Nat.lt_or_ge gen.length max_len with hlt | hge
    · left
      have hglast := h5 hlt
      have hne : gen ≠ [] := by
        intro hnil
        rw [hnil] at hglast
        simp at hglast
      cases gen with
      | nil => exact absurd rfl hne
      | cons b t =>
        rw [List.getLast?_cons_cons]
        exact hglast
    · right
      simp only [List.length_cons]
      omega

/-- Claim C10: for every model and source input (and `max_len ≥ 1`), the
token-id list returned by `greedy_decode` begins with `start_token_id`, has
length at least 2 and at most `max_len + 1`, the end token occurs among the
generated tokens (the elements after the start token) only as the final
element of the list, and a result that does not end in `end_token_id` has
exactly `max_len` generated tokens after the start token (total length
`max_len + 1`). -/
theorem greedy_decode_invariants {α : Type} [LinearOrder α]
    (model : List ℤ → List ℤ → List (List α)) (src : List ℤ) (max_len : ℕ)
    (s e : ℤ) (hm : 1 ≤ max_len) :
    (greedy_decode model src max_len s e).head? = some s ∧
      2 ≤ (greedy_decode model src max_len s e).length ∧
      (greedy_decode model src max_len s e).length ≤ max_len + 1 ∧
      (∀ k, 1 ≤ k → k + 1 < (greedy_decode model src max_len s e).length →
        (greedy_decode model src max_len s e)[k]? ≠ some e) ∧
      ((greedy_decode model src max_len s e).getLast? ≠ some e →
        (greedy_decode model src max_len s e).length = max_len + 1) := by
  obtain ⟨gen, h1, h2, h3, h4, h5, h6⟩ := greedyLoop_spec model src e max_len [s]
  have hr : greedy_decode model src max_len s e = s :: gen := by
    rw [greedy_decode, h1, List.singleton_append]
  have hne : gen ≠ [] := h6 (by omega)
  rw [hr]
  refine ⟨rfl, ?_, ?_, ?_, ?_⟩
  · have : 1 ≤ gen.length := List.length_pos.mpr hne
    simp only [List.length_cons]
    omega
  · simp only [List.length_cons]
    omega
  · intro k hk1 hk2
    cases k with
    | zero => omega
    | succ k' =>
      rw [List.getElem?_cons_succ]
      refine h4 k' ?_
      simp only [List.length_cons] at hk2
      omega
  · intro hlast
    rcases Nat.lt_or_ge gen.length max_len with hlt | hge
    · exfalso
      have hglast := h5 hlt
      cases gen with
      | nil => exact absurd rfl hne
      | cons b t =>
        rw [List.getLast?_cons_cons] at hlast
        exact hlast hglast
    · simp only [List.length_cons]
      omega

/-- A model that always predicts token 3 (`EOS`) with the greatest logit, used
as the claim C10 witness input. -/
def wModel : List ℤ → List ℤ → List (List ℚ) := fun _ _ => [[0, 0, 0, 1]]

/-! ## `train_model` (claims C4, C9)

Source:
```
def train_model(model, dataloader, optimizer, criterion, num_epochs):
    model.train()
    for epoch in range(num_epochs):
        total_loss = 0
        for src, tgt in tqdm(dataloader, ...):
            tgt_input = tgt[:, :-1]
            tgt_output = tgt[:, 1:]
            outputs = model(src, tgt_input)
            loss = criterion(outputs.view(-1, outputs.size(-1)), tgt_output.contiguous().view(-1))
            optimizer.zero_grad()
            loss.backward()
            optimizer.step()
            total_loss += loss.item()
```
with `criterion = nn.CrossEntropyLoss(ignore_index=0)` and
`optimizer = optim.Adam(model.parameters(), lr=1e-4)` at the call site.
The model, criterion and optimizer are parameters of `train_model`, so the
embedding abstracts the model/optimizer pair as an arbitrary per-batch update
function and embeds the pieces the claims are about: the teacher-forcing
split, the ignore-index cross-entropy (modelled from the documented semantics
of `torch.nn.CrossEntropyLoss`: the mean of `-log softmax(x)[t]` over the
positions whose target differs from the ignore index), and the once-per-batch
update structure of the epoch loop. -/

/-- `tgt[:, :-1]`: per batch row, the Python slice `[:-1]`, i.e. the first
`len - 1` tokens. -/
def tgt_input (tgt : List (List ℕ)) : List (List ℕ) :=
  tgt.map (fun row => row.take (row.length - 1))

/-- `tgt[:, 1:]`: per batch row, the Python slice `[1:]`. -/
def tgt_output (tgt : List (List ℕ)) : List (List ℕ) :=
  tgt.map (fun row => row.drop 1)

/-- `nn.CrossEntropyLoss(ignore_index=0)` on flattened (logit row, target)
pairs: the mean of `-log softmax(x)[t]` over the pairs whose target is not the
PAD id `0` (modelled from the documented semantics of
`torch.nn.CrossEntropyLoss`; `torch` is an external library). -/
noncomputable def crossEntropyIgnorePad {V : ℕ}
    (pairs : List ((Fin V → ℝ) × Fin V)) : ℝ :=
  ((pairs.filter (fun q => q.2.val ≠ 0)).map
      (fun q => -Real.log (softmaxRow q.1 q.2))).sum /
    ((pairs.filter (fun q => q.2.val ≠ 0)).length : ℝ)

/-- One iteration of the inner batch loop: compute the teacher-forcing split of
the target batch and hand `(src, tgt_input, tgt_output)` to the combined
forward/loss/optimizer update (an arbitrary function, as `model`, `criterion`
and `optimizer` are parameters of `train_model`). -/
def train_batch_step {P : Type}
    (forwardUpdate : P → List (List ℕ) → List (List ℕ) → List (List ℕ) → P)
    (p : P) (batch : List (List ℕ) × List (List ℕ)) : P :=
  forwardUpdate p batch.1 (tgt_input batch.2) (tgt_output batch.2)

/-- One epoch of `train_model`: fold the per-batch update over the batches in
order. -/
def train_model_epoch {P B : Type} (step : P → B → P) (params : P)
    (batches : List B) : P :=
  batches.foldl step params

lemma foldl_count {P B : Type} (step : P → B → P) :
    ∀ (batches : List B) (params : P) (n : ℕ),
      batches.foldl (fun pn b => (step pn.1 b, pn.2 + 1)) (params, n) =
        (batches.foldl step params, n + batches.length) := by
  intro batches
  induction batches with
  | nil =>
    intro params n
    simp
  | cons b bs ih =>
    intro params n
    simp only [List.foldl_cons, List.length_cons]
    rw [ih]
    congr 1
    omega

lemma filter_nonpad_idem {V : ℕ} (pairs : List ((Fin V → ℝ) × Fin V)) :
    (pairs.filter (fun q => q.2.val ≠ 0)).filter (fun q => q.2.val ≠ 0) =
      pairs.filter (fun q => q.2.val ≠ 0) := by
  rw [List.filter_filter]
  apply List.filter_congr
  intro q _
  rw [Bool.and_self]

/-- Claim C4: the training loop splits every target batch into `tgt_input` (per
row, all but the last token) and `tgt_output` (per row, all but the first
token), runs the forward/loss computation on `(src, tgt_input, tgt_output)`
per batch, computes the loss as cross-entropy with the PAD id 0 excluded via
ignore-index — so the loss equals the loss over only the non-PAD positions and
padding positions never contribute — and applies the parameter update exactly
once per batch (an instrumented fold that counts update applications performs
exactly `batches.length` of them in an epoch). -/
theorem train_model_spec {P : Type} {V : ℕ}
    (forwardUpdate : P → List (List ℕ) → List (List ℕ) → List (List ℕ) → P)
    (step : P → (List (List ℕ) × List (List ℕ)) → P) (params : P)
    (batches : List (List (List ℕ) × List (List ℕ)))
    (src tgt : List (List ℕ)) (p : P) (pairs : List ((Fin V → ℝ) × Fin V)) :
    (tgt_input tgt = tgt.map List.dropLast ∧ tgt_output tgt = tgt.map List.tail) ∧
      train_batch_step forwardUpdate p (src, tgt) =
        forwardUpdate p src (tgt.map List.dropLast) (tgt.map List.tail) ∧
      crossEntropyIgnorePad pairs =
        crossEntropyIgnorePad (pairs.filter (fun q => q.2.val ≠ 0)) ∧
      batches.foldl (fun pn b => (step pn.1 b, pn.2 + 1)) (params, 0) =
        (train_model_epoch step params batches, batches.length) := by
  have hsplit : tgt_input tgt = tgt.map List.dropLast ∧
      tgt_output tgt = tgt.map List.tail := by
    constructor
    · unfold tgt_input
      apply List.map_congr_left
      intro row _
      rw [List.dropLast_eq_take]
    · unfold tgt_output
      apply List.map_congr_left
      intro row _
      rw [List.drop_one]
  refine ⟨hsplit, ?_, ?_, ?_⟩
  · unfold train_batch_step
    rw [hsplit.1, hsplit.2]
  · unfold crossEntropyIgnorePad
    rw [filter_nonpad_idem]
  · rw [train_model_epoch, foldl_count, Nat.zero_add]

/-! ## Adam and the zero-length batch (claim C9)

The notebook's optimizer is `optim.Adam(model.parameters(), lr=1e-4)` with the
default hyperparameters `β₁ = 0.9`, `β₂ = 0.999`, `eps = 1e-8` and no weight
decay; `adamStep` below is modelled from the documented `torch.optim.Adam`
update rule for a single scalar parameter (`torch` is an external library):
`t ← t+1`, `m ← β₁ m + (1-β₁) g`, `v ← β₂ v + (1-β₂) g²`,
`m̂ = m / (1 - β₁ᵗ)`, `v̂ = v / (1 - β₂ᵗ)`,
`θ ← θ - lr · m̂ / (√v̂ + eps)`.

On a zero-length batch the flattened loss has no elements, so the gradient
reaching every parameter is an empty sum, i.e. exactly 0, and no exception is
raised; but `train_model` still executes `optimizer.step()` for the batch, and
an Adam step at zero gradient moves the parameter whenever the accumulated
first-moment estimate is nonzero. -/

/-- Scalar-parameter Adam optimizer state: the parameter value, the first and
second moment estimates, and the step count. -/
structure AdamState where
  param : ℝ
  m : ℝ
  v : ℝ
  t : ℕ

/-- One `optimizer.step()` of `torch.optim.Adam` on a scalar parameter with
gradient `g` (defaults `β₁ = 0.9`, `β₂ = 0.999`, `eps = 1e-8`). -/
noncomputable def adamStep (lr : ℝ) (st : AdamState) (g : ℝ) : AdamState :=
  AdamState.mk
    (st.param -
      lr * ((0.9 * st.m + (1 - 0.9) * g) / (1 - 0.9 ^ (st.t + 1))) /
        (Real.sqrt ((0.999 * st.v + (1 - 0.999) * g ^ 2) / (1 - 0.999 ^ (st.t + 1)))
          + 1e-8))
    (0.9 * st.m + (1 - 0.9) * g)
    (0.999 * st.v + (1 - 0.999) * g ^ 2)
    (st.t + 1)

/-- The gradient reaching a parameter from a batch with `numElems` flattened
loss elements: the sum of the per-element contributions (for a zero-length
batch this is the empty sum). -/
def batchGradContributionSum (contrib : ℕ → ℝ) (numElems : ℕ) : ℝ :=
  ∑ i ∈ Finset.range numElems, contrib i

/-- The training step `train_model` executes for a batch with `numElems`
flattened loss elements: an unconditional Adam step on the batch gradient. -/
noncomputable def trainStepOnBatch (lr : ℝ) (contrib : ℕ → ℝ) (numElems : ℕ)
    (st : AdamState) : AdamState :=
  adamStep lr st (batchGradContributionSum contrib numElems)

lemma adamStep_param_lt (lr : ℝ) (hlr : 0 < lr) (st : AdamState) (hm : 0 < st.m) :
    (adamStep lr st 0).param < st.param := by
  unfold adamStep
  simp only
  have hb1 : (0.9 : ℝ) ^ (st.t + 1) < 1 :=
    pow_lt_one₀ (by norm_num) (by norm_num) (Nat.succ_ne_zero _)
  have hb2 : (0.999 : ℝ) ^ (st.t + 1) < 1 :=
    pow_lt_one₀ (by norm_num) (by norm_num) (Nat.succ_ne_zero _)
  have hm' : (0 : ℝ) < 0.9 * st.m + (1 - 0.9) * (0 : ℝ) := by nlinarith
  have hmhat : (0 : ℝ) <
      (0.9 * st.m + (1 - 0.9) * (0 : ℝ)) / (1 - 0.9 ^ (st.t + 1)) :=
    div_pos hm' (by linarith)
  have hden : (0 : ℝ) <
      Real.sqrt ((0.999 * st.v + (1 - 0.999) * (0 : ℝ) ^ 2) / (1 - 0.999 ^ (st.t + 1)))
        + 1e-8 := by
    have hs := Real.sqrt_nonneg
      ((0.999 * st.v + (1 - 0.999) * (0 : ℝ) ^ 2) / (1 - 0.999 ^ (st.t + 1)))
    linarith
  have hupd : (0 : ℝ) <
      lr * ((0.9 * st.m + (1 - 0.9) * (0 : ℝ)) / (1 - 0.9 ^ (st.t + 1))) /
        (Real.sqrt ((0.999 * st.v + (1 - 0.999) * (0 : ℝ) ^ 2) / (1 - 0.999 ^ (st.t + 1)))
          + 1e-8) :=
    div_pos (mul_pos hlr hmhat) hden
  linarith

/-- Counterexample for claim C9: at the notebook's learning rate `1e-4`, a
training step on a zero-length batch (zero gradient) with accumulated Adam
moment estimates `m = 1`, `v = 1` after one earlier step changes the
parameter, so the step is not a strict no-op. -/
theorem trainStep_emptyBatch_not_noop :
    (trainStepOnBatch 1e-4 (fun _ => 0) 0 (AdamState.mk 0 1 1 1)).param ≠
      (AdamState.mk 0 1 1 1).param := by
  have hstep : trainStepOnBatch 1e-4 (fun _ => 0) 0 (AdamState.mk 0 1 1 1) =
      adamStep 1e-4 (AdamState.mk 0 1 1 1) 0 := by
    unfold trainStepOnBatch batchGradContributionSum
    rw [Finset.range_zero, Finset.sum_empty]
  rw [hstep]
  exact ne_of_lt (adamStep_param_lt 1e-4 (by norm_num) (AdamState.mk 0 1 1 1)
    (by norm_num))

/-- Claim C9 (amended): a teacher-forced training step on a zero-length batch
raises no exception (every function involved is total) and the gradient
reaching each parameter is the empty sum, exactly 0; the `optimizer.step()`
is still executed, and the parameter is unchanged when the Adam moment
estimates are zero (e.g. before any nonzero-gradient step has occurred) —
while with a nonzero accumulated first moment the parameter changes, as the
counterexample shows. -/
theorem trainStep_emptyBatch_freshState_noop (lr : ℝ) (contrib : ℕ → ℝ)
    (st : AdamState) (hm : st.m = 0) (hv : st.v = 0) :
    batchGradContributionSum contrib 0 = 0 ∧
      (trainStepOnBatch lr contrib 0 st).param = st.param := by
  constructor
  · rw [batchGradContributionSum, Finset.range_zero, Finset.sum_empty]
  · unfold trainStepOnBatch batchGradContributionSum adamStep
    simp [hm, hv]

/-- Witness for the amended claim C9 at a concrete fresh optimizer state. -/
theorem trainStep_emptyBatch_freshState_noop_witness :
    (AdamState.mk 7 0 0 5).m = 0 ∧ (AdamState.mk 7 0 0 5).v = 0 ∧
      (batchGradContributionSum (fun _ => 2) 0 = 0 ∧
        (trainStepOnBatch 1e-4 (fun _ => 2) 0 (AdamState.mk 7 0 0 5)).param =
          (AdamState.mk 7 0 0 5).param) :=
  ⟨rfl, rfl, trainStep_emptyBatch_freshState_noop 1e-4 (fun _ => 2)
    (AdamState.mk 7 0 0 5) rfl rfl⟩

/-- Witness for claim C10 at a concrete model that always predicts `EOS`. -/
theorem greedy_decode_invariants_witness :
    1 ≤ 50 ∧
      ((greedy_decode wModel [5] 50 2 3).head? = some 2 ∧
        2 ≤ (greedy_decode wModel [5] 50 2 3).length ∧
        (greedy_decode wModel [5] 50 2 3).length ≤ 50 + 1 ∧
        (∀ k, 1 ≤ k → k + 1 < (greedy_decode wModel [5] 50 2 3).length →
          (greedy_decode wModel [5] 50 2 3)[k]? ≠ some 3) ∧
        ((greedy_decode wModel [5] 50 2 3).getLast? ≠ some 3 →
          (greedy_decode wModel [5] 50 2 3).length = 50 + 1)) :=
  ⟨by decide, greedy_decode_invariants wModel [5] 50 2 3 (by decide)⟩

end MT4fb
